import Mathlib

/-!
Verification development for the ESPHome Native API server
(`src/esphome_api.c`, `src/include/esphome_api.h`, `src/include/esphome_proto.h`).

Machine integers are modelled as `Nat` (byte lists are `List Nat` with each
element below 256); signed values (RSSI) are `Int`.  The per-connection
receive loop, the dispatcher, the BLE advertisement batch and the session
registry are taken directly from `esphome_api.c`.  The wire codec
(`pb_encode_varint`, `pb_decode_varint`, `esphome_frame_message`,
`esphome_decode_frame_header`, the message encoders/decoders) is declared in
`esphome_proto.h` but its implementation file is not part of the repository
snapshot; those definitions are modelled from the specification (spec
sections 4.1, 4.2, 4.3 and 6) and are marked as such in their doc comments.
-/

/-! ### Constants from esphome_api.c / esphome_proto.h / esphome_api.h -/

/-- `RECV_BUFFER_SIZE` from esphome_api.c. -/
def RECV_BUFFER_SIZE : Nat := 4096

/-- `SEND_BUFFER_SIZE` from esphome_api.c. -/
def SEND_BUFFER_SIZE : Nat := 8192

/-- `ESPHOME_MAX_MESSAGE_SIZE` from esphome_proto.h. -/
def ESPHOME_MAX_MESSAGE_SIZE : Nat := 4096

/-- `ESPHOME_MAX_ADV_BATCH` from esphome_proto.h. -/
def ESPHOME_MAX_ADV_BATCH : Nat := 16

/-- `ESPHOME_MAX_ADV_DATA` from esphome_proto.h. -/
def ESPHOME_MAX_ADV_DATA : Nat := 62

/-! ### Wire codec: varints

Modelled from the spec: the implementation of `pb_encode_varint` /
`pb_decode_varint` (declared in esphome_proto.h) is not under src/.
Spec 4.1: little-endian base-128 groups, continuation bit set on all but the
last byte; the decoder rejects input that would require more than 10 groups
and fails cleanly when no terminating byte exists in the remaining buffer.
-/

/-- Modelled from the spec: encoding loop for `pb_encode_varint`.  The fuel
argument (10 at top level) bounds the number of base-128 groups; a 64-bit
value never needs more than 10 groups, so fuel 10 is exact on the C domain. -/
def pb_encode_varint_loop : Nat → Nat → List Nat
  | 0, n => [n % 128]
  | fuel + 1, n =>
    if n < 128 then [n] else (n % 128 + 128) :: pb_encode_varint_loop fuel (n / 128)

/-- Modelled from the spec: `pb_encode_varint` (spec 4.1). -/
def pb_encode_varint (n : Nat) : List Nat := pb_encode_varint_loop 10 n

/-- Modelled from the spec: decoding loop for `pb_decode_varint`.  Carries the
current shift, accumulator and group count; rejects an 11th group. -/
def pb_decode_varint_loop : List Nat → Nat → Nat → Nat → Option (Nat × Nat)
  | [], _, _, _ => none
  | b :: rest, shift, acc, cnt =>
    if 10 ≤ cnt then none
    else if b < 128 then some (acc + b * 2 ^ shift, cnt + 1)
    else pb_decode_varint_loop rest (shift + 7) (acc + (b - 128) * 2 ^ shift) (cnt + 1)

/-- Modelled from the spec: `pb_decode_varint` (spec 4.1); returns the decoded
value and the number of bytes consumed, or `none` on underflow/overflow. -/
def pb_decode_varint (l : List Nat) : Option (Nat × Nat) :=
  pb_decode_varint_loop l 0 0 0

/-! #### Varint lemmas -/

theorem pb_decode_varint_loop_append {xs : List Nat} {s a c v k : Nat} (ys : List Nat)
    (h : pb_decode_varint_loop xs s a c = some (v, k)) :
    pb_decode_varint_loop (xs ++ ys) s a c = some (v, k) := by
  induction xs generalizing s a c with
  | nil => simp [pb_decode_varint_loop] at h
  | cons b rest ih =>
    simp only [pb_decode_varint_loop, List.cons_append] at h ⊢
    by_cases h10 : 10 ≤ c
    · simp [h10] at h
    · simp only [if_neg h10] at h ⊢
      by_cases hb : b < 128
      · simpa [hb] using h
      · simp only [if_neg hb] at h ⊢
        exact ih h

theorem pb_decode_varint_append {l : List Nat} {v k : Nat} (ys : List Nat)
    (h : pb_decode_varint l = some (v, k)) :
    pb_decode_varint (l ++ ys) = some (v, k) :=
  pb_decode_varint_loop_append ys h

theorem pb_decode_varint_loop_le {xs : List Nat} {s a c v k : Nat}
    (h : pb_decode_varint_loop xs s a c = some (v, k)) : k ≤ c + xs.length := by
  induction xs generalizing s a c with
  | nil => simp [pb_decode_varint_loop] at h
  | cons b rest ih =>
    simp only [pb_decode_varint_loop] at h
    by_cases h10 : 10 ≤ c
    · simp [h10] at h
    · simp only [if_neg h10] at h
      by_cases hb : b < 128
      · simp only [if_pos hb, Option.some.injEq, Prod.mk.injEq] at h
        simp only [List.length_cons]
        omega
      · simp only [if_neg hb] at h
        have := ih h
        simp only [List.length_cons]
        omega

theorem pb_decode_varint_le {l : List Nat} {v k : Nat}
    (h : pb_decode_varint l = some (v, k)) : k ≤ l.length := by
  simpa using pb_decode_varint_loop_le h

theorem pb_encode_varint_loop_length {f k n : Nat} (h1 : 1 ≤ k) (hk : k ≤ f)
    (h : n < 128 ^ k) : (pb_encode_varint_loop f n).length ≤ k := by
  induction f generalizing k n with
  | zero => omega
  | succ f ih =>
    by_cases hn : n < 128
    · simp [pb_encode_varint_loop, hn]
      omega
    · have hk2 : 2 ≤ k := by
        by_contra hcon
        have hk1 : k = 1 := by omega
        subst hk1
        simp only [pow_one] at h
        omega
      simp only [pb_encode_varint_loop, if_neg hn, List.length_cons]
      have hdiv : n / 128 < 128 ^ (k - 1) := by
        have h128 : 0 < (128 : Nat) := by norm_num
        rw [Nat.div_lt_iff_lt_mul h128]
        calc n < 128 ^ k := h
          _ = 128 ^ (k - 1) * 128 := by
            rw [← pow_succ]
            congr 1
            omega
      have := ih (k := k - 1) (n := n / 128) (by omega) (by omega) hdiv
      omega

theorem pb_encode_varint_length {n : Nat} (h : n < 128 ^ 10) :
    (pb_encode_varint n).length ≤ 10 :=
  pb_encode_varint_loop_length (by norm_num) (le_refl 10) h

theorem pb_encode_varint_length_le {n k : Nat} (h1 : 1 ≤ k) (hk : k ≤ 10)
    (h : n < 128 ^ k) : (pb_encode_varint n).length ≤ k :=
  pb_encode_varint_loop_length h1 hk h

theorem pb_encode_varint_loop_ne_nil (f n : Nat) : pb_encode_varint_loop f n ≠ [] := by
  cases f with
  | zero => simp [pb_encode_varint_loop]
  | succ f =>
    by_cases hn : n < 128 <;> simp [pb_encode_varint_loop, hn]

theorem pb_encode_varint_ne_nil (n : Nat) : pb_encode_varint n ≠ [] :=
  pb_encode_varint_loop_ne_nil 10 n

theorem varint_round_trip_loop {f n : Nat} (rest : List Nat) {s a c : Nat}
    (hn : n < 128 ^ f) (hc : c + (pb_encode_varint_loop f n).length ≤ 10) :
    pb_decode_varint_loop (pb_encode_varint_loop f n ++ rest) s a c =
      some (a + n * 2 ^ s, c + (pb_encode_varint_loop f n).length) := by
  induction f generalizing n s a c with
  | zero =>
    have hn0 : n = 0 := by simpa using hn
    subst hn0
    simp only [pb_encode_varint_loop, List.length_cons, List.length_nil] at hc ⊢
    simp only [pb_encode_varint_loop, List.cons_append, List.nil_append,
      pb_decode_varint_loop]
    have hc10 : ¬ 10 ≤ c := by omega
    simp [hc10]
  | succ f ih =>
    by_cases hsmall : n < 128
    · simp only [pb_encode_varint_loop, if_pos hsmall, List.length_cons,
        List.length_nil] at hc ⊢
      simp only [List.cons_append, List.nil_append, pb_decode_varint_loop]
      have hc10 : ¬ 10 ≤ c := by omega
      simp [hc10, hsmall]
    · simp only [pb_encode_varint_loop, if_neg hsmall, List.length_cons] at hc ⊢
      simp only [List.cons_append, pb_decode_varint_loop]
      have hc10 : ¬ 10 ≤ c := by omega
      have hb : ¬ (n % 128 + 128 < 128) := by omega
      simp only [if_neg hc10, if_neg hb]
      have hsub : n % 128 + 128 - 128 = n % 128 := by omega
      rw [hsub]
      have hdiv : n / 128 < 128 ^ f := by
        have h128 : 0 < (128 : Nat) := by norm_num
        rw [Nat.div_lt_iff_lt_mul h128]
        calc n < 128 ^ (f + 1) := hn
          _ = 128 ^ f * 128 := by rw [pow_succ]
      have := ih (n := n / 128) (s := s + 7) (a := a + n % 128 * 2 ^ s)
        (c := c + 1) hdiv (by omega)
      have hval : a + n % 128 * 2 ^ s + n / 128 * 2 ^ (s + 7) = a + n * 2 ^ s := by
        have hmod : n % 128 + 128 * (n / 128) = n := Nat.mod_add_div n 128
        have h27 : (2 : Nat) ^ (s + 7) = 2 ^ s * 128 := by
          rw [pow_add]; norm_num
        rw [h27]
        calc a + n % 128 * 2 ^ s + n / 128 * (2 ^ s * 128)
            = a + (n % 128 + 128 * (n / 128)) * 2 ^ s := by ring
          _ = a + n * 2 ^ s := by rw [hmod]
      have hcnt : c + 1 + (pb_encode_varint_loop f (n / 128)).length
          = c + ((pb_encode_varint_loop f (n / 128)).length + 1) := by omega
      rw [List.append_eq, this, hval, hcnt]

theorem varint_round_trip {n : Nat} (rest : List Nat) (hn : n < 128 ^ 10) :
    pb_decode_varint (pb_encode_varint n ++ rest) =
      some (n, (pb_encode_varint n).length) := by
  have := varint_round_trip_loop (f := 10) (n := n) rest (s := 0) (a := 0) (c := 0)
    hn (by simpa using pb_encode_varint_length hn)
  simpa using this

theorem varint_decode_incomplete_loop {f n : Nat} {p t : List Nat} {s a c : Nat}
    (hn : n < 128 ^ f) (hc : c + (pb_encode_varint_loop f n).length ≤ 10)
    (h : p ++ t = pb_encode_varint_loop f n) (ht : t ≠ []) :
    pb_decode_varint_loop p s a c = none := by
  induction f generalizing n p s a c with
  | zero =>
    have hn0 : n = 0 := by simpa using hn
    subst hn0
    simp only [pb_encode_varint_loop] at h
    cases p with
    | nil => simp [pb_decode_varint_loop]
    | cons x xs =>
      simp only [List.cons_append, List.cons.injEq] at h
      have : xs = [] ∧ t = [] := by
        have := h.2
        constructor
        · cases xs <;> simp_all
        · cases xs <;> simp_all
      exact absurd this.2 ht
  | succ f ih =>
    by_cases hsmall : n < 128
    · simp only [pb_encode_varint_loop, if_pos hsmall] at h
      cases p with
      | nil => simp [pb_decode_varint_loop]
      | cons x xs =>
        simp only [List.cons_append, List.cons.injEq] at h
        have : xs = [] ∧ t = [] := by
          constructor
          · cases xs <;> simp_all
          · cases xs <;> simp_all
        exact absurd this.2 ht
    · simp only [pb_encode_varint_loop, if_neg hsmall, List.length_cons] at h hc
      cases p with
      | nil => simp [pb_decode_varint_loop]
      | cons x xs =>
        simp only [List.cons_append, List.cons.injEq] at h
        obtain ⟨hx, hxs⟩ := h
        subst hx
        simp only [pb_decode_varint_loop]
        have hc10 : ¬ 10 ≤ c := by omega
        have hb : ¬ (n % 128 + 128 < 128) := by omega
        simp only [if_neg hc10, if_neg hb]
        have hdiv : n / 128 < 128 ^ f := by
          have h128 : 0 < (128 : Nat) := by norm_num
          rw [Nat.div_lt_iff_lt_mul h128]
          calc n < 128 ^ (f + 1) := hn
            _ = 128 ^ f * 128 := by rw [pow_succ]
        exact ih hdiv (by omega) hxs

theorem varint_decode_incomplete {n : Nat} {p t : List Nat} (hn : n < 128 ^ 10)
    (h : p ++ t = pb_encode_varint n) (ht : t ≠ []) :
    pb_decode_varint p = none :=
  varint_decode_incomplete_loop hn (by simpa using pb_encode_varint_length hn) h ht

/-! ### MAC packing (`mac_to_uint64`, esphome_api.c lines 69-79) -/

/-- `mac_to_uint64` from esphome_api.c: packs the six address bytes into a
64-bit integer, `mac[0]` most significant (`result |= mac[i] << ((5-i)*8)`). -/
def mac_to_uint64 (mac : List Nat) : Nat :=
  (List.range 6).foldl (fun result i => result ||| (mac.getD i 0 <<< ((5 - i) * 8))) 0

/-! ### Frame transport

The wire frame (spec section 6, byte-exact):
a zero preamble byte, a varint holding the length of the message-type varint
plus the payload, the message-type varint, then the payload bytes.
`esphome_frame_message` and `esphome_decode_frame_header` are declared in
esphome_proto.h; their implementation file is not under src/, so they are
modelled from the spec (sections 4.2 and 6).
-/

/-- Modelled from the spec: the byte sequence of one frame
`[0x00 preamble][varint: len(type_varint)+len(payload)][varint: type][payload]`. -/
def frame_bytes (msg_type : Nat) (payload : List Nat) : List Nat :=
  0 :: pb_encode_varint ((pb_encode_varint msg_type).length + payload.length) ++
    pb_encode_varint msg_type ++ payload

/-- Modelled from the spec: `esphome_frame_message` (esphome_proto.h).  Builds
the frame into a caller buffer of capacity `cap`; returns the empty list (the
C sentinel of a zero-length result) when the frame would not fit. -/
def esphome_frame_message (cap : Nat) (msg_type : Nat) (payload : List Nat) : List Nat :=
  if (frame_bytes msg_type payload).length ≤ cap then frame_bytes msg_type payload else []

/-- Modelled from the spec: `esphome_decode_frame_header` (esphome_proto.h,
spec 4.2).  Parses preamble + length varint + type varint from the
accumulated buffer; `none` models the C return value 0 (insufficient data or
malformed input, neither consuming anything).  On success it returns
`(header_len, msg_len, msg_type)` where `header_len` is the offset at which
the payload starts and `msg_len` the payload length alone, so the total frame
size is `header_len + msg_len` (comment block in `handle_client_data`). -/
def esphome_decode_frame_header (buf : List Nat) : Option (Nat × Nat × Nat) :=
  match buf with
  | [] => none
  | b :: rest =>
    if b = 0 then
      match pb_decode_varint rest with
      | none => none
      | some (len1, k1) =>
        match pb_decode_varint (rest.drop k1) with
        | none => none
        | some (ty, k2) => some (1 + k1 + k2, len1 - k2, ty)
    else none

/-- `handle_client_data` (esphome_api.c lines 401-457), written with explicit
fuel so that it computes by kernel reduction; the fuel `buf.length` is enough
because every processed frame removes at least its header byte.  Returns the
list of dispatched `(message_type, payload)` pairs and the compacted buffer. -/
def handle_client_data_loop : Nat → List Nat → List (Nat × List Nat) × List Nat
  | 0, buf => ([], buf)
  | fuel + 1, buf =>
    match esphome_decode_frame_header buf with
    | none => ([], buf)
    | some (header_len, msg_len, msg_type) =>
      if buf.length < header_len + msg_len then ([], buf)
      else
        let r := handle_client_data_loop fuel (buf.drop (header_len + msg_len))
        ((msg_type, (buf.drop header_len).take msg_len) :: r.1, r.2)

/-- `handle_client_data` (esphome_api.c lines 401-457). -/
def handle_client_data (buf : List Nat) : List (Nat × List Nat) × List Nat :=
  handle_client_data_loop buf.length buf

/-- One client session (`client_connection_t`, esphome_api.c lines 27-37):
`fd_open` models `fd >= 0`, `recv_buffer` holds the accumulated bytes
(`recv_pos` is its length). -/
structure ClientConn where
  fd_open : Bool
  authenticated : Bool
  subscribed_ble : Bool
  recv_buffer : List Nat
deriving DecidableEq

/-- `client_close` (esphome_api.c lines 91-99): close the socket and reset
the session state. -/
def client_close (c : ClientConn) : ClientConn :=
  { c with fd_open := false, authenticated := false,
           subscribed_ble := false, recv_buffer := [] }

/-- The session state after `client_close`: released slot. -/
def closed_conn : ClientConn :=
  { fd_open := false, authenticated := false, subscribed_ble := false, recv_buffer := [] }

/-- The receive loop of `client_thread_func` (esphome_api.c lines 540-564).
The byte stream is a list of delivery chunks; each `recv` takes at most the
remaining buffer capacity `RECV_BUFFER_SIZE - recv_pos` from the front chunk
(the kernel keeps undelivered bytes, modelled by pushing the remainder back).
A zero-byte `recv` result — stream exhausted, or a full buffer making the
requested length 0 — exits the loop (`received <= 0` branch).  Returns the
dispatched `(message_type, payload)` pairs and the chunks that were never
delivered when the loop exited. -/
def client_thread_recv_loop : Nat → List (List Nat) → List Nat →
    List (Nat × List Nat) × List (List Nat)
  | 0, chunks, _ => ([], chunks)
  | _ + 1, [], _ => ([], [])
  | fuel + 1, c :: cs, buf =>
    let cap := RECV_BUFFER_SIZE - buf.length
    let recvd := c.take cap
    if recvd = [] then ([], c :: cs)
    else
      let r := handle_client_data (buf ++ recvd)
      let rest := c.drop cap
      let r2 := client_thread_recv_loop fuel (if rest = [] then cs else rest :: cs) r.2
      (r.1 ++ r2.1, r2.2)

/-- The receive loop with enough fuel for any delivery schedule (each
iteration either consumes bytes or a whole chunk). -/
def client_loop (chunks : List (List Nat)) (buf : List Nat) :
    List (Nat × List Nat) × List (List Nat) :=
  client_thread_recv_loop ((chunks.map List.length).sum + chunks.length) chunks buf

/-- `client_thread_func` (esphome_api.c lines 540-573) acting on the session
registry: runs the receive loop for slot `i` starting from its accumulated
buffer, then the cleanup block closes the socket and resets the session
(`client_close`), touching only its own slot. -/
def run_client_thread (reg : Fin 2 → ClientConn) (i : Fin 2)
    (chunks : List (List Nat)) : (Fin 2 → ClientConn) × List (Nat × List Nat) :=
  (Function.update reg i closed_conn, (client_loop chunks (reg i).recv_buffer).1)

/-! #### Frame header lemmas -/

theorem frame_bytes_eq (msg_type : Nat) (payload : List Nat) :
    frame_bytes msg_type payload =
      0 :: (pb_encode_varint ((pb_encode_varint msg_type).length + payload.length) ++
        (pb_encode_varint msg_type ++ payload)) := by
  simp [frame_bytes, List.append_assoc]

theorem frame_bytes_length (msg_type : Nat) (payload : List Nat) :
    (frame_bytes msg_type payload).length =
      1 + (pb_encode_varint ((pb_encode_varint msg_type).length + payload.length)).length
        + (pb_encode_varint msg_type).length + payload.length := by
  rw [frame_bytes_eq]
  simp
  omega

theorem frame_bytes_ne_nil (msg_type : Nat) (payload : List Nat) :
    frame_bytes msg_type payload ≠ [] := by
  rw [frame_bytes_eq]
  simp

theorem frame_header_decode (msg_type : Nat) (payload ext : List Nat)
    (hty : msg_type < 128 ^ 10)
    (hL : (pb_encode_varint msg_type).length + payload.length < 128 ^ 10) :
    esphome_decode_frame_header (frame_bytes msg_type payload ++ ext) =
      some (1 + (pb_encode_varint ((pb_encode_varint msg_type).length +
        payload.length)).length + (pb_encode_varint msg_type).length,
        payload.length, msg_type) := by
  have h1 : frame_bytes msg_type payload ++ ext =
      0 :: (pb_encode_varint ((pb_encode_varint msg_type).length + payload.length) ++
        (pb_encode_varint msg_type ++ (payload ++ ext))) := by
    rw [frame_bytes_eq]
    simp [List.append_assoc]
  rw [h1]
  have h2 := varint_round_trip
    (n := (pb_encode_varint msg_type).length + payload.length)
    (pb_encode_varint msg_type ++ (payload ++ ext)) hL
  have h4 := varint_round_trip (n := msg_type) (payload ++ ext) hty
  simp only [esphome_decode_frame_header, if_pos rfl, h2, List.drop_left, h4]
  have : (pb_encode_varint msg_type).length + payload.length -
      (pb_encode_varint msg_type).length = payload.length := by omega
  rw [this]
  simp

theorem esphome_decode_frame_header_append {buf : List Nat} {hl ml ty : Nat}
    (ext : List Nat) (h : esphome_decode_frame_header buf = some (hl, ml, ty)) :
    esphome_decode_frame_header (buf ++ ext) = some (hl, ml, ty) := by
  cases buf with
  | nil => simp [esphome_decode_frame_header] at h
  | cons b rest =>
    simp only [esphome_decode_frame_header, List.cons_append] at h ⊢
    by_cases hb : b = 0
    · simp only [if_pos hb] at h ⊢
      cases h1 : pb_decode_varint rest with
      | none => simp [h1] at h
      | some vk =>
        obtain ⟨v, k⟩ := vk
        have hk : k ≤ rest.length := pb_decode_varint_le h1
        have hdrop : (rest ++ ext).drop k = rest.drop k ++ ext :=
          List.drop_append_of_le_length hk
        cases h2 : pb_decode_varint (rest.drop k) with
        | none => simp [h1, h2] at h
        | some vk2 =>
          obtain ⟨v2, k2⟩ := vk2
          simp only [h1, h2] at h
          simp only [pb_decode_varint_append ext h1, hdrop,
            pb_decode_varint_append ext h2]
          exact h
    · simp [hb] at h

theorem handle_client_data_loop_nil (fuel : Nat) :
    handle_client_data_loop fuel [] = ([], []) := by
  cases fuel with
  | zero => rfl
  | succ f => simp [handle_client_data_loop, esphome_decode_frame_header]

theorem handle_client_data_of_header_none {buf : List Nat}
    (h : esphome_decode_frame_header buf = none) :
    handle_client_data buf = ([], buf) := by
  unfold handle_client_data
  cases hn : buf.length with
  | zero => simp [handle_client_data_loop]
  | succ m => simp [handle_client_data_loop, h]

theorem handle_client_data_of_insufficient {buf : List Nat} {hl ml ty : Nat}
    (h : esphome_decode_frame_header buf = some (hl, ml, ty))
    (hlen : buf.length < hl + ml) :
    handle_client_data buf = ([], buf) := by
  unfold handle_client_data
  cases hn : buf.length with
  | zero => simp [handle_client_data_loop]
  | succ m => simp [handle_client_data_loop, h, hlen]

theorem esphome_decode_frame_header_zero_cons (rest : List Nat) :
    esphome_decode_frame_header (0 :: rest) =
      match pb_decode_varint rest with
      | none => none
      | some (len1, k1) =>
        match pb_decode_varint (rest.drop k1) with
        | none => none
        | some (ty, k2) => some (1 + k1 + k2, len1 - k2, ty) := by
  simp [esphome_decode_frame_header]

theorem handle_client_data_frame (msg_type : Nat) (payload : List Nat)
    (hty : msg_type < 128 ^ 10)
    (hL : (pb_encode_varint msg_type).length + payload.length < 128 ^ 10) :
    handle_client_data (frame_bytes msg_type payload) = ([(msg_type, payload)], []) := by
  have hdr := frame_header_decode msg_type payload [] hty hL
  rw [List.append_nil] at hdr
  have hflen := frame_bytes_length msg_type payload
  have hdropPayload : (frame_bytes msg_type payload).drop
      (1 + (pb_encode_varint ((pb_encode_varint msg_type).length +
        payload.length)).length + (pb_encode_varint msg_type).length) = payload := by
    have hsplit : frame_bytes msg_type payload =
        ((0 :: pb_encode_varint ((pb_encode_varint msg_type).length + payload.length)) ++
          pb_encode_varint msg_type) ++ payload := by
      simp [frame_bytes, List.append_assoc]
    have hlen1 : ((0 :: pb_encode_varint ((pb_encode_varint msg_type).length +
        payload.length)) ++ pb_encode_varint msg_type).length =
        1 + (pb_encode_varint ((pb_encode_varint msg_type).length +
          payload.length)).length + (pb_encode_varint msg_type).length := by
      simp
      omega
    rw [hsplit, List.drop_left' hlen1]
  have hdropAll : (frame_bytes msg_type payload).drop
      (1 + (pb_encode_varint ((pb_encode_varint msg_type).length +
        payload.length)).length + (pb_encode_varint msg_type).length +
        payload.length) = [] :=
    List.drop_eq_nil_of_le (by omega)
  unfold handle_client_data
  cases hn : (frame_bytes msg_type payload).length with
  | zero =>
    exact absurd (List.eq_nil_of_length_eq_zero hn) (frame_bytes_ne_nil _ _)
  | succ m =>
    have hcond : ¬ ((frame_bytes msg_type payload).length <
        1 + (pb_encode_varint ((pb_encode_varint msg_type).length +
          payload.length)).length + (pb_encode_varint msg_type).length +
          payload.length) := by omega
    simp only [handle_client_data_loop, hdr, hcond, if_false, if_neg hcond,
      hdropPayload, hdropAll, List.take_length, handle_client_data_loop_nil]

theorem handle_client_data_take_incomplete (msg_type : Nat) (payload : List Nat)
    (hty : msg_type < 128 ^ 10)
    (hL : (pb_encode_varint msg_type).length + payload.length < 128 ^ 10)
    {k : Nat} (hk : k < (frame_bytes msg_type payload).length) :
    handle_client_data ((frame_bytes msg_type payload).take k) =
      ([], (frame_bytes msg_type payload).take k) := by
  have hflen := frame_bytes_length msg_type payload
  rcases k with _ | j
  · simp [handle_client_data, handle_client_data_loop]
  · have hX : (frame_bytes msg_type payload).take (j + 1) =
        0 :: (pb_encode_varint ((pb_encode_varint msg_type).length + payload.length) ++
          (pb_encode_varint msg_type ++ payload)).take j := by
      rw [frame_bytes_eq]
      rfl
    rw [hX]
    rcases Nat.lt_or_ge j (pb_encode_varint ((pb_encode_varint msg_type).length +
        payload.length)).length with hA | hA
    · -- the length varint itself is incomplete
      have htake : (pb_encode_varint ((pb_encode_varint msg_type).length +
          payload.length) ++ (pb_encode_varint msg_type ++ payload)).take j =
          (pb_encode_varint ((pb_encode_varint msg_type).length +
            payload.length)).take j := by
        rw [List.take_append_eq_append_take, Nat.sub_eq_zero_of_le (Nat.le_of_lt hA)]
        simp
      rw [htake]
      have hvnone : pb_decode_varint ((pb_encode_varint
          ((pb_encode_varint msg_type).length + payload.length)).take j) = none := by
        refine varint_decode_incomplete hL (List.take_append_drop _ _) ?_
        intro hcon
        rw [List.drop_eq_nil_iff] at hcon
        omega
      apply handle_client_data_of_header_none
      rw [esphome_decode_frame_header_zero_cons, hvnone]
    · rcases Nat.lt_or_ge j ((pb_encode_varint ((pb_encode_varint msg_type).length +
          payload.length)).length + (pb_encode_varint msg_type).length) with hB | hB
      · -- the type varint is incomplete
        have htake : (pb_encode_varint ((pb_encode_varint msg_type).length +
            payload.length) ++ (pb_encode_varint msg_type ++ payload)).take j =
            pb_encode_varint ((pb_encode_varint msg_type).length + payload.length) ++
              (pb_encode_varint msg_type).take (j - (pb_encode_varint
                ((pb_encode_varint msg_type).length + payload.length)).length) := by
          rw [List.take_append_eq_append_take, List.take_of_length_le hA,
            List.take_append_eq_append_take,
            Nat.sub_eq_zero_of_le (show j - (pb_encode_varint
              ((pb_encode_varint msg_type).length + payload.length)).length ≤
              (pb_encode_varint msg_type).length by omega)]
          simp
        rw [htake]
        have hvnone : pb_decode_varint ((pb_encode_varint msg_type).take
            (j - (pb_encode_varint ((pb_encode_varint msg_type).length +
              payload.length)).length)) = none := by
          refine varint_decode_incomplete hty (List.take_append_drop _ _) ?_
          intro hcon
          rw [List.drop_eq_nil_iff] at hcon
          omega
        apply handle_client_data_of_header_none
        have hv1 := varint_round_trip (n := (pb_encode_varint msg_type).length +
          payload.length) ((pb_encode_varint msg_type).take
            (j - (pb_encode_varint ((pb_encode_varint msg_type).length +
              payload.length)).length)) hL
        simp only [esphome_decode_frame_header_zero_cons, hv1, List.drop_left, hvnone]
      · -- full header present but the payload is incomplete
        have htake : (pb_encode_varint ((pb_encode_varint msg_type).length +
            payload.length) ++ (pb_encode_varint msg_type ++ payload)).take j =
            pb_encode_varint ((pb_encode_varint msg_type).length + payload.length) ++
              (pb_encode_varint msg_type ++ payload.take
                (j - (pb_encode_varint ((pb_encode_varint msg_type).length +
                  payload.length)).length - (pb_encode_varint msg_type).length)) := by
          rw [List.take_append_eq_append_take, List.take_of_length_le hA,
            List.take_append_eq_append_take,
            List.take_of_length_le (show (pb_encode_varint msg_type).length ≤
              j - (pb_encode_varint ((pb_encode_varint msg_type).length +
                payload.length)).length by omega)]
        rw [htake]
        have hdr : esphome_decode_frame_header (0 ::
            (pb_encode_varint ((pb_encode_varint msg_type).length + payload.length) ++
              (pb_encode_varint msg_type ++ payload.take
                (j - (pb_encode_varint ((pb_encode_varint msg_type).length +
                  payload.length)).length - (pb_encode_varint msg_type).length)))) =
            some (1 + (pb_encode_varint ((pb_encode_varint msg_type).length +
              payload.length)).length + (pb_encode_varint msg_type).length,
              payload.length, msg_type) := by
          have hv1 := varint_round_trip (n := (pb_encode_varint msg_type).length +
            payload.length) (pb_encode_varint msg_type ++ payload.take
              (j - (pb_encode_varint ((pb_encode_varint msg_type).length +
                payload.length)).length - (pb_encode_varint msg_type).length)) hL
          have hv2 := varint_round_trip (n := msg_type) (payload.take
            (j - (pb_encode_varint ((pb_encode_varint msg_type).length +
              payload.length)).length - (pb_encode_varint msg_type).length)) hty
          simp only [esphome_decode_frame_header_zero_cons, hv1, List.drop_left, hv2]
          have hsub : (pb_encode_varint msg_type).length + payload.length -
              (pb_encode_varint msg_type).length = payload.length := by omega
          rw [hsub]
        refine handle_client_data_of_insufficient hdr ?_
        simp only [List.length_cons, List.length_append, List.length_take]
        omega

theorem client_thread_recv_loop_nil (fuel : Nat) (buf : List Nat) :
    client_thread_recv_loop fuel [] buf = ([], []) := by
  cases fuel with
  | zero => rfl
  | succ f => rfl

theorem client_loop_reassembles (msg_type : Nat) (payload : List Nat)
    (hty : msg_type < 128 ^ 10)
    (hL : (pb_encode_varint msg_type).length + payload.length < 128 ^ 10)
    (hsz : (frame_bytes msg_type payload).length ≤ RECV_BUFFER_SIZE) :
    ∀ (chunks : List (List Nat)) (fuel : Nat) (buf : List Nat),
      chunks.length ≤ fuel → chunks ≠ [] → (∀ c ∈ chunks, c ≠ []) →
      buf ++ chunks.flatten = frame_bytes msg_type payload →
      client_thread_recv_loop fuel chunks buf = ([(msg_type, payload)], []) := by
  intro chunks
  induction chunks with
  | nil =>
    intro fuel buf _ hne _ _
    exact absurd rfl hne
  | cons c cs ih =>
    intro fuel buf hfuel _ hnonempty hjoin
    obtain ⟨f, rfl⟩ : ∃ f, fuel = f + 1 := by
      refine ⟨fuel - 1, ?_⟩
      simp only [List.length_cons] at hfuel
      omega
    have hcne : c ≠ [] := hnonempty c (by simp)
    have hbufc : buf.length + c.length ≤ (frame_bytes msg_type payload).length := by
      have h1 : (buf ++ (c :: cs).flatten).length =
          (frame_bytes msg_type payload).length := by rw [hjoin]
      simp only [List.length_append, List.flatten_cons] at h1
      omega
    have hcap : c.length ≤ RECV_BUFFER_SIZE - buf.length := by omega
    have hrecvd : c.take (RECV_BUFFER_SIZE - buf.length) = c :=
      List.take_of_length_le hcap
    have hrest : c.drop (RECV_BUFFER_SIZE - buf.length) = [] :=
      List.drop_eq_nil_of_le hcap
    simp only [client_thread_recv_loop, hrecvd, hrest, if_neg hcne,
      eq_self_iff_true, if_true]
    cases cs with
    | nil =>
      have hbc : buf ++ c = frame_bytes msg_type payload := by
        simpa using hjoin
      rw [hbc, handle_client_data_frame msg_type payload hty hL]
      simp [client_thread_recv_loop_nil]
    | cons c2 cs2 =>
      have hc2 : c2 ≠ [] := hnonempty c2 (by simp)
      have hlt : (buf ++ c).length < (frame_bytes msg_type payload).length := by
        have h1 : (buf ++ (c :: c2 :: cs2).flatten).length =
            (frame_bytes msg_type payload).length := by rw [hjoin]
        simp only [List.length_append, List.flatten_cons] at h1
        have : 0 < c2.length := List.length_pos.mpr hc2
        simp only [List.length_append]
        omega
      have htk : (frame_bytes msg_type payload).take (buf ++ c).length = buf ++ c := by
        conv_lhs => rw [← hjoin]
        rw [show buf ++ (c :: c2 :: cs2).flatten = (buf ++ c) ++ (c2 :: cs2).flatten by
          simp [List.flatten_cons]]
        exact List.take_left _ _
      have hnoop := handle_client_data_take_incomplete msg_type payload hty hL hlt
      rw [htk] at hnoop
      rw [hnoop]
      have hih := ih f (buf ++ c)
        (by simp only [List.length_cons] at hfuel ⊢; omega)
        (by simp)
        (fun x hx => hnonempty x (by simp at hx ⊢; tauto))
        (by simpa [List.flatten_cons, List.append_assoc] using hjoin)
      simpa using hih

theorem client_thread_recv_loop_oversized :
    ∀ (fuel : Nat) (chunks : List (List Nat)) (buf : List Nat) (hl ml ty : Nat),
      (∀ c ∈ chunks, c ≠ []) →
      buf.length ≤ RECV_BUFFER_SIZE →
      esphome_decode_frame_header buf = some (hl, ml, ty) →
      RECV_BUFFER_SIZE < hl + ml →
      (client_thread_recv_loop fuel chunks buf).1 = [] ∧
      ((chunks.map List.length).sum + chunks.length ≤ fuel →
        RECV_BUFFER_SIZE - buf.length ≤ chunks.flatten.length →
        ((client_thread_recv_loop fuel chunks buf).2.flatten).length =
          chunks.flatten.length - (RECV_BUFFER_SIZE - buf.length)) := by
  intro fuel
  induction fuel with
  | zero =>
    intro chunks buf hl ml ty _ _ _ _
    refine ⟨rfl, fun hfuel hjoin => ?_⟩
    have : chunks = [] := by
      cases chunks with
      | nil => rfl
      | cons c cs => simp at hfuel
    subst this
    simp only [client_thread_recv_loop, List.flatten_nil, List.length_nil] at hjoin ⊢
    omega
  | succ f ih =>
    intro chunks buf hl ml ty hne hbuf hdr hover
    cases chunks with
    | nil =>
      refine ⟨rfl, fun _ hjoin => ?_⟩
      simp only [List.flatten_nil, List.length_nil] at hjoin ⊢
      simp only [client_thread_recv_loop, List.flatten_nil, List.length_nil]
      omega
    | cons c cs =>
      have hcne : c ≠ [] := hne c (by simp)
      by_cases hcap0 : RECV_BUFFER_SIZE - buf.length = 0
      · constructor
        · simp [client_thread_recv_loop, hcap0]
        · intro _ _
          simp [client_thread_recv_loop, hcap0]
      · have hrne : c.take (RECV_BUFFER_SIZE - buf.length) ≠ [] := by
          rw [Ne, List.take_eq_nil_iff]
          push_neg
          exact ⟨hcap0, hcne⟩
        have hdr2 := esphome_decode_frame_header_append
          (c.take (RECV_BUFFER_SIZE - buf.length)) hdr
        have hlen2 : (buf ++ c.take (RECV_BUFFER_SIZE - buf.length)).length ≤
            RECV_BUFFER_SIZE := by
          simp only [List.length_append, List.length_take]
          omega
        have hnoop := handle_client_data_of_insufficient hdr2 (by omega)
        have hne2 : ∀ x ∈ (if c.drop (RECV_BUFFER_SIZE - buf.length) = [] then cs
            else c.drop (RECV_BUFFER_SIZE - buf.length) :: cs), x ≠ [] := by
          intro x hx
          by_cases hrest : c.drop (RECV_BUFFER_SIZE - buf.length) = []
          · exact hne x (by simp [hrest] at hx; simp [hx])
          · rw [if_neg hrest] at hx
            rcases List.mem_cons.mp hx with h | h
            · rw [h]; exact hrest
            · exact hne x (by simp [h])
        have hrec := ih (if c.drop (RECV_BUFFER_SIZE - buf.length) = [] then cs
            else c.drop (RECV_BUFFER_SIZE - buf.length) :: cs)
          (buf ++ c.take (RECV_BUFFER_SIZE - buf.length)) hl ml ty hne2 hlen2 hdr2 hover
        simp only [client_thread_recv_loop, if_neg hrne, hnoop]
        constructor
        · simpa using hrec.1
        · intro hfuel hjoin
          have htlen : (c.take (RECV_BUFFER_SIZE - buf.length)).length =
              min (RECV_BUFFER_SIZE - buf.length) c.length := List.length_take _ _
          by_cases hrest : c.drop (RECV_BUFFER_SIZE - buf.length) = []
          · have hclen : c.length ≤ RECV_BUFFER_SIZE - buf.length :=
              List.drop_eq_nil_iff.mp hrest
            have h2 := hrec.2 (by
                simp only [if_pos hrest, List.length_cons, List.map_cons,
                  List.sum_cons] at hfuel ⊢
                omega)
              (by
                simp only [if_pos hrest, List.length_append, List.length_take,
                  List.flatten_cons, List.length_append] at hjoin ⊢
                omega)
            simp only [if_pos hrest] at h2 ⊢
            simp only [List.flatten_cons, List.length_append, List.length_append,
              List.length_take] at hjoin h2 ⊢
            omega
          · have hclen : RECV_BUFFER_SIZE - buf.length < c.length := by
              by_contra hcon
              exact hrest (List.drop_eq_nil_of_le (by omega))
            have h2 := hrec.2 (by
                simp only [if_neg hrest, List.length_cons, List.map_cons,
                  List.sum_cons, List.length_drop] at hfuel ⊢
                omega)
              (by
                simp only [if_neg hrest, List.length_append, List.length_take,
                  List.flatten_cons, List.length_drop] at hjoin ⊢
                omega)
            simp only [if_neg hrest] at h2 ⊢
            simp only [List.flatten_cons, List.length_append, List.length_take,
              List.length_drop] at hjoin h2 ⊢
            omega

/-- C1: for every valid frame (16-bit message type, total size within the
4096-byte receive buffer) and for every way of splitting its bytes into
successive non-empty delivery chunks (including one byte at a time), the
receive loop dispatches exactly one `(message_type, payload)` pair, identical
to the frame that was sent, and `handle_client_data` consumes nothing on any
proper prefix of the frame (it waits for more data without consuming). -/
theorem c1_frame_reassembly (msg_type : Nat) (payload : List Nat)
    (chunks : List (List Nat))
    (hty : msg_type < 65536)
    (hsz : (frame_bytes msg_type payload).length ≤ RECV_BUFFER_SIZE)
    (hsplit : chunks.flatten = frame_bytes msg_type payload)
    (hchunks : chunks ≠ []) (hne : ∀ c ∈ chunks, c ≠ []) :
    client_loop chunks [] = ([(msg_type, payload)], []) ∧
    ∀ k, k < (frame_bytes msg_type payload).length →
      handle_client_data ((frame_bytes msg_type payload).take k) =
        ([], (frame_bytes msg_type payload).take k) := by
  have hty10 : msg_type < 128 ^ 10 := by
    calc msg_type < 65536 := hty
      _ < 128 ^ 10 := by norm_num
  have hL : (pb_encode_varint msg_type).length + payload.length < 128 ^ 10 := by
    have h1 : (pb_encode_varint msg_type).length ≤ 10 := pb_encode_varint_length hty10
    have h2 := frame_bytes_length msg_type payload
    have h3 : payload.length ≤ RECV_BUFFER_SIZE := by omega
    have hbig : (10 : Nat) + RECV_BUFFER_SIZE < 128 ^ 10 := by norm_num [RECV_BUFFER_SIZE]
    omega
  constructor
  · exact client_loop_reassembles msg_type payload hty10 hL hsz chunks _ []
      (Nat.le_add_left _ _) hchunks hne (by simpa using hsplit)
  · intro k hk
    exact handle_client_data_take_incomplete msg_type payload hty10 hL hk

theorem c1_witness :
    ([[0], [1], [1]] : List (List Nat)).flatten = frame_bytes 1 [] ∧
    client_loop [[0], [1], [1]] [] = ([(1, [])], []) :=
  ⟨by decide, (c1_frame_reassembly 1 [] [[0], [1], [1]] (by decide) (by decide)
    (by decide) (by decide) (by decide)).1⟩

/-- C2: a connection whose accumulated input declares a frame whose total
size `header_len + msg_len` exceeds the 4096-byte maximum is fatally broken:
whatever the peer delivers afterwards (any chunking), no message is ever
dispatched from that connection, the client thread ends with the connection
closed and the session reset (`closed_conn`), no other registry slot is
touched, and once the declared data exceeds the remaining buffer capacity the
loop stops reading with exactly the surplus bytes left undelivered (the
buffer fills up, the zero-length `recv` returns 0 and the cleanup path closes
and releases the session). -/
theorem c2_oversized_frame_fatal (reg : Fin 2 → ClientConn) (i : Fin 2)
    (chunks : List (List Nat)) (hl ml ty : Nat)
    (hbuf : (reg i).recv_buffer.length ≤ RECV_BUFFER_SIZE)
    (hdr : esphome_decode_frame_header (reg i).recv_buffer = some (hl, ml, ty))
    (hover : ESPHOME_MAX_MESSAGE_SIZE < hl + ml)
    (hne : ∀ c ∈ chunks, c ≠ []) :
    (run_client_thread reg i chunks).2 = [] ∧
    (run_client_thread reg i chunks).1 i = closed_conn ∧
    (∀ j, j ≠ i → (run_client_thread reg i chunks).1 j = reg j) ∧
    (RECV_BUFFER_SIZE - (reg i).recv_buffer.length ≤ chunks.flatten.length →
      ((client_loop chunks (reg i).recv_buffer).2.flatten).length =
        chunks.flatten.length - (RECV_BUFFER_SIZE - (reg i).recv_buffer.length)) := by
  have hover2 : RECV_BUFFER_SIZE < hl + ml := hover
  have h := client_thread_recv_loop_oversized
    ((chunks.map List.length).sum + chunks.length) chunks (reg i).recv_buffer
    hl ml ty hne hbuf hdr hover2
  refine ⟨h.1, ?_, ?_, ?_⟩
  · simp [run_client_thread]
  · intro j hj
    simp [run_client_thread, Function.update_noteq hj]
  · intro hjoin
    exact h.2 (le_refl _) hjoin

def c2_reg : Fin 2 → ClientConn := fun _ =>
  { fd_open := true, authenticated := false, subscribed_ble := false,
    recv_buffer := [0, 255, 63, 1] }

theorem c2_witness :
    esphome_decode_frame_header [0, 255, 63, 1] = some (4, 8190, 1) ∧
    (run_client_thread c2_reg 0 [[5]]).2 = [] ∧
    (run_client_thread c2_reg 0 [[5]]).1 0 = closed_conn :=
  ⟨by decide,
   (c2_oversized_frame_fatal c2_reg 0 [[5]] 4 8190 1 (by decide) (by decide)
     (by decide) (by decide)).1,
   (c2_oversized_frame_fatal c2_reg 0 [[5]] 4 8190 1 (by decide) (by decide)
     (by decide) (by decide)).2.1⟩

theorem lor_byte_step (x y n m : Nat) (hm : m = n + 8) (hy : y < 256) :
    x * 2 ^ m ||| y * 2 ^ n = (x * 256 + y) * 2 ^ n := by
  subst hm
  have hb : y * 2 ^ n < 2 ^ (n + 8) := by
    have h2 : (0 : Nat) < 2 ^ n := Nat.two_pow_pos n
    calc y * 2 ^ n < 256 * 2 ^ n := by
          exact Nat.mul_lt_mul_of_lt_of_le hy (le_refl _) h2
      _ = 2 ^ (n + 8) := by rw [pow_add]; ring
  calc x * 2 ^ (n + 8) ||| y * 2 ^ n
      = 2 ^ (n + 8) * x ||| y * 2 ^ n := by rw [Nat.mul_comm]
    _ = 2 ^ (n + 8) * x + y * 2 ^ n := (Nat.mul_add_lt_is_or hb x).symm
    _ = (x * 256 + y) * 2 ^ n := by rw [pow_add]; ring

/-- C6: `mac_to_uint64` packs a 6-byte MAC into a 64-bit integer whose top
two bytes are zero and whose remaining six bytes are the address bytes in
order with the first byte most significant. -/
theorem c6_mac_packing (a b c d e f : Nat)
    (ha : a < 256) (hb : b < 256) (hc : c < 256) (hd : d < 256)
    (he : e < 256) (hf : f < 256) :
    mac_to_uint64 [a, b, c, d, e, f] =
      a * 2 ^ 40 + b * 2 ^ 32 + c * 2 ^ 24 + d * 2 ^ 16 + e * 2 ^ 8 + f ∧
    mac_to_uint64 [a, b, c, d, e, f] < 2 ^ 48 := by
  have e0 : mac_to_uint64 [a, b, c, d, e, f] =
      (((((((0 : Nat) ||| a <<< 40) ||| b <<< 32) ||| c <<< 24) ||| d <<< 16)
        ||| e <<< 8) ||| f <<< 0) := rfl
  have key : mac_to_uint64 [a, b, c, d, e, f] =
      a * 2 ^ 40 + b * 2 ^ 32 + c * 2 ^ 24 + d * 2 ^ 16 + e * 2 ^ 8 + f := by
    rw [e0]
    simp only [Nat.zero_or, Nat.shiftLeft_eq]
    rw [lor_byte_step a b 32 40 (by norm_num) hb,
      lor_byte_step (a * 256 + b) c 24 32 (by norm_num) hc,
      lor_byte_step ((a * 256 + b) * 256 + c) d 16 24 (by norm_num) hd,
      lor_byte_step (((a * 256 + b) * 256 + c) * 256 + d) e 8 16 (by norm_num) he,
      lor_byte_step ((((a * 256 + b) * 256 + c) * 256 + d) * 256 + e) f 0 8
        (by norm_num) hf]
    ring
  refine ⟨key, ?_⟩
  rw [key]
  have h48 : (281474976710656 : Nat) = 2 ^ 48 := by norm_num
  omega

theorem c6_witness :
    (0xAA : Nat) < 256 ∧
    mac_to_uint64 [0xAA, 0xBB, 0xCC, 0xDD, 0xEE, 0xFF] = 0x0000AABBCCDDEEFF :=
  ⟨by decide, by
    have h := (c6_mac_packing 0xAA 0xBB 0xCC 0xDD 0xEE 0xFF (by decide) (by decide)
      (by decide) (by decide) (by decide) (by decide)).1
    rw [h]
    norm_num⟩

/-! ### Wire codec: field encoders

Modelled from the spec (4.1): the field-level encoders declared in
esphome_proto.h are not under src/.  A field is a tag varint
`(field_number << 3) | wire_type` followed by the value encoding.
-/

/-- Modelled from the spec: tag varint `(field_num << 3) | wire_type`. -/
def pb_tag (field_num wire_type : Nat) : List Nat :=
  pb_encode_varint (field_num * 8 + wire_type)

/-- Modelled from the spec: `pb_encode_uint32` (varint wire type 0). -/
def pb_encode_uint32 (field_num n : Nat) : List Nat :=
  pb_tag field_num 0 ++ pb_encode_varint n

/-- Modelled from the spec: `pb_encode_uint64` (varint wire type 0). -/
def pb_encode_uint64 (field_num n : Nat) : List Nat :=
  pb_tag field_num 0 ++ pb_encode_varint n

/-- Modelled from the spec: `pb_encode_bool` (varint 0/1). -/
def pb_encode_bool (field_num : Nat) (b : Bool) : List Nat :=
  pb_tag field_num 0 ++ pb_encode_varint (if b then 1 else 0)

/-- Modelled from the spec: the zigzag transform `(n << 1) ^ (n >> 31)`
mapping signed to unsigned integers. -/
def zigzag32 (n : Int) : Nat :=
  if 0 ≤ n then (2 * n).toNat else (2 * (-n) - 1).toNat

/-- Modelled from the spec: `pb_encode_sint32` (zigzag then varint). -/
def pb_encode_sint32 (field_num : Nat) (n : Int) : List Nat :=
  pb_tag field_num 0 ++ pb_encode_varint (zigzag32 n)

/-- Modelled from the spec: `pb_encode_string` (tag + varint length + bytes). -/
def pb_encode_string (field_num : Nat) (s : List Nat) : List Nat :=
  pb_tag field_num 2 ++ pb_encode_varint s.length ++ s

/-- Modelled from the spec: `pb_encode_bytes` (tag + varint length + bytes). -/
def pb_encode_bytes (field_num : Nat) (s : List Nat) : List Nat :=
  pb_tag field_num 2 ++ pb_encode_varint s.length ++ s

/-! ### BLE advertisement data model -/

/-- `esphome_ble_advert_t` (esphome_api.h): the producer-side advertisement.
`address` is the 6-byte MAC (a byte list), `data` the 62-byte combined
advertisement/scan-response array, `data_len` the declared payload length. -/
structure BleAdvert where
  address : List Nat
  address_type : Nat
  rssi : Int
  data : List Nat
  data_len : Nat
deriving DecidableEq

/-- `esphome_ble_advertisement_t` (esphome_proto.h): the protobuf-side entry
stored in the batch; `data` holds the copied bytes (its length is the stored
`data_len`). -/
structure PbBleAdvertisement where
  address : Nat
  rssi : Int
  address_type : Nat
  data : List Nat
deriving DecidableEq

/-- The conversion performed by `esphome_api_queue_ble_advert` (esphome_api.c
lines 767-781): pack the MAC, copy rssi and address_type, copy at most
`ESPHOME_MAX_ADV_DATA` (62) payload bytes. -/
def convert_advert (a : BleAdvert) : PbBleAdvertisement :=
  { address := mac_to_uint64 a.address
    rssi := a.rssi
    address_type := a.address_type
    data := a.data.take (min a.data_len ESPHOME_MAX_ADV_DATA) }

/-- Modelled from the spec: one advertisement submessage of
`BluetoothLERawAdvertisementsResponse` (spec 4.3): address (uint64, field 1),
rssi (sint32, field 2), address_type (uint32, field 3), data (bytes,
field 4).  The spec fixes the field set; the numbers 1-4 are the natural
ordering (the spec pins numbers only for DeviceInfoResponse fields 15/18). -/
def encode_ble_advert (a : PbBleAdvertisement) : List Nat :=
  pb_encode_uint64 1 a.address ++ pb_encode_sint32 2 a.rssi ++
    pb_encode_uint32 3 a.address_type ++ pb_encode_bytes 4 a.data

/-- Modelled from the spec: `esphome_encode_ble_advertisements`
(esphome_proto.h): the whole batch as one message of repeated advertisement
submessages (each length-delimited under field 1) into a buffer of capacity
`cap`; returns the empty list (C length 0) when the encoding does not fit. -/
def esphome_encode_ble_advertisements (cap : Nat)
    (batch : List PbBleAdvertisement) : List Nat :=
  let body := (batch.map (fun a => pb_encode_bytes 1 (encode_ble_advert a))).flatten
  if body.length ≤ cap then body else []

/-! ### Server state and the send path -/

/-- `struct esphome_api_server` (esphome_api.c lines 42-57), restricted to
the state the claims are about: the running flag, the listening socket, the
two client slots, the advertisement batch (`ble_batch.count` is the list
length) and the `last_flush` reference point (an abstract timestamp). -/
structure ServerState where
  running : Bool
  listen_open : Bool
  clients : Fin 2 → ClientConn
  ble_batch : List PbBleAdvertisement
  last_flush : Nat

/-- One attempted transmission: the slot it went to, the exact frame bytes
handed to `send`, and whether the socket accepted the whole frame (`ok`);
`ok = false` models a send error or a partial write, both of which make
`send_message` return -1. -/
structure SendEvent where
  slot : Fin 2
  frame : List Nat
  ok : Bool
deriving DecidableEq

/-- `send_message` (esphome_api.c lines 137-167): frame the message into the
8192-byte send buffer; on framing failure return -1 without sending
(`none`); otherwise hand the frame to `send`, whose outcome per slot is given
by the `sendOk` oracle. -/
def send_message (sendOk : Fin 2 → Bool) (i : Fin 2) (msg_type : Nat)
    (payload : List Nat) : Option SendEvent :=
  let f := esphome_frame_message SEND_BUFFER_SIZE msg_type payload
  if f = [] then none else some { slot := i, frame := f, ok := sendOk i }

/-- `flush_ble_batch` (esphome_api.c lines 473-511): empty batch is a no-op;
otherwise encode the batch, on encoding failure drop the batch (count = 0)
without sending and WITHOUT resetting `last_flush` (the C early-returns
before `clock_gettime`); otherwise send the single frame to every client
slot with `fd >= 0 && subscribed_ble`, then clear the batch and reset
`last_flush` to `now`.  The send results are ignored (the C discards
`send_message`'s return value) and no client state is modified. -/
def flush_ble_batch (sendOk : Fin 2 → Bool) (now : Nat) (s : ServerState) :
    ServerState × List SendEvent :=
  if s.ble_batch = [] then (s, [])
  else
    let payload := esphome_encode_ble_advertisements ESPHOME_MAX_MESSAGE_SIZE s.ble_batch
    if payload = [] then ({ s with ble_batch := [] }, [])
    else
      let evs := (List.finRange 2).filterMap (fun i =>
        if (s.clients i).fd_open && (s.clients i).subscribed_ble then
          send_message sendOk i 93 payload
        else none)
      ({ s with ble_batch := [], last_flush := now }, evs)

/-- `esphome_api_queue_ble_advert` (esphome_api.c lines 753-790), the
non-NULL path: if the batch is at capacity flush first, store the converted
advertisement at index `count`, and flush immediately when the batch became
full. -/
def esphome_api_queue_ble_advert (sendOk : Fin 2 → Bool) (now : Nat)
    (s : ServerState) (adv : BleAdvert) : ServerState × List SendEvent :=
  let p1 := if ESPHOME_MAX_ADV_BATCH ≤ s.ble_batch.length
    then flush_ble_batch sendOk now s else (s, [])
  let s2 : ServerState :=
    { p1.1 with ble_batch := p1.1.ble_batch ++ [convert_advert adv] }
  let p3 := if ESPHOME_MAX_ADV_BATCH ≤ s2.ble_batch.length
    then flush_ble_batch sendOk now s2 else (s2, [])
  (p3.1, p1.2 ++ p3.2)

/-- The NULL-guarded entry point `esphome_api_queue_ble_advert` (esphome_api.c
lines 753-757): a NULL server or advertisement pointer returns immediately. -/
def esphome_api_queue_ble_advert_entry (sendOk : Fin 2 → Bool) (now : Nat)
    (server : Option ServerState) (advert : Option BleAdvert) :
    Option ServerState × List SendEvent :=
  match server, advert with
  | some s, some a =>
    let r := esphome_api_queue_ble_advert sendOk now s a
    (some r.1, r.2)
  | _, _ => (server, [])

/-- `esphome_api_stop` (esphome_api.c lines 705-736): NULL returns
immediately; otherwise clear the running flag, close the listening socket
and close every client slot. -/
def esphome_api_stop (server : Option ServerState) : Option ServerState :=
  match server with
  | none => none
  | some s =>
    some { s with
      running := false
      listen_open := false
      clients := fun i => client_close (s.clients i) }

/-- `esphome_api_free` (esphome_api.c lines 738-751): NULL returns
immediately; otherwise the server is deallocated (no server remains). -/
def esphome_api_free (server : Option ServerState) : Option ServerState :=
  match server with
  | none => none
  | some _ => none

theorem flush_ble_batch_clears (sendOk : Fin 2 → Bool) (now : Nat) (s : ServerState) :
    (flush_ble_batch sendOk now s).1.ble_batch = [] := by
  unfold flush_ble_batch
  by_cases h : s.ble_batch = []
  · simp [h]
  · simp only [if_neg h]
    by_cases h2 : esphome_encode_ble_advertisements ESPHOME_MAX_MESSAGE_SIZE
        s.ble_batch = []
    · simp [h2]
    · simp [h2]


/-- C3: enqueue never drops an advertisement.  If the batch already holds 16
entries, the leading flush empties it before the new entry is stored (so the
result batch is exactly the new entry); below capacity the entry is appended
at the end; at 15 entries the append fills the batch and the immediate flush
delivers the batch containing the new entry; and the batch count never
exceeds the capacity 16 after any enqueue or any flush. -/
theorem c3_enqueue_never_drops (sendOk : Fin 2 → Bool) (now : Nat)
    (s : ServerState) (adv : BleAdvert)
    (hinv : s.ble_batch.length ≤ ESPHOME_MAX_ADV_BATCH) :
    (esphome_api_queue_ble_advert sendOk now s adv).1.ble_batch.length ≤
      ESPHOME_MAX_ADV_BATCH ∧
    (s.ble_batch.length = ESPHOME_MAX_ADV_BATCH →
      (esphome_api_queue_ble_advert sendOk now s adv).1.ble_batch =
        [convert_advert adv]) ∧
    (s.ble_batch.length < ESPHOME_MAX_ADV_BATCH - 1 →
      (esphome_api_queue_ble_advert sendOk now s adv).1.ble_batch =
        s.ble_batch ++ [convert_advert adv]) ∧
    (s.ble_batch.length = ESPHOME_MAX_ADV_BATCH - 1 →
      (esphome_api_queue_ble_advert sendOk now s adv).1.ble_batch = [] ∧
      (esphome_api_queue_ble_advert sendOk now s adv).2 =
        (flush_ble_batch sendOk now
          { s with ble_batch := s.ble_batch ++ [convert_advert adv] }).2) ∧
    (∀ s' : ServerState,
      (flush_ble_batch sendOk now s').1.ble_batch.length ≤ ESPHOME_MAX_ADV_BATCH) := by
  have hmax : ESPHOME_MAX_ADV_BATCH = 16 := rfl
  by_cases h16 : ESPHOME_MAX_ADV_BATCH ≤ s.ble_batch.length
  · have h16n : 16 ≤ s.ble_batch.length := hmax ▸ h16
    have hb : (esphome_api_queue_ble_advert sendOk now s adv).1.ble_batch =
        [convert_advert adv] := by
      simp [esphome_api_queue_ble_advert, h16n, flush_ble_batch_clears, hmax]
    refine ⟨by rw [hb]; simp [hmax], fun _ => hb,
      fun hcon => ?_, fun hcon => ?_,
      fun s' => by rw [flush_ble_batch_clears]; simp⟩
    · exfalso
      rw [hmax] at hcon
      omega
    · exfalso
      rw [hmax] at hcon
      omega
  · by_cases hfull : ESPHOME_MAX_ADV_BATCH ≤
        (s.ble_batch ++ [convert_advert adv]).length
    · have hfulln : ESPHOME_MAX_ADV_BATCH ≤ s.ble_batch.length + 1 := by
        simpa using hfull
      have hb : (esphome_api_queue_ble_advert sendOk now s adv).1.ble_batch = [] := by
        simp [esphome_api_queue_ble_advert, h16, hfulln, flush_ble_batch_clears]
      have hev : (esphome_api_queue_ble_advert sendOk now s adv).2 =
          (flush_ble_batch sendOk now
            { s with ble_batch := s.ble_batch ++ [convert_advert adv] }).2 := by
        simp [esphome_api_queue_ble_advert, h16, hfulln]
      refine ⟨by rw [hb]; simp [hmax], fun hcon => ?_,
        fun hcon => ?_, fun _ => ⟨hb, hev⟩,
        fun s' => by rw [flush_ble_batch_clears]; simp⟩
      · exfalso
        rw [hmax] at hcon h16
        omega
      · exfalso
        rw [hmax] at hcon hfulln
        omega
    · have hfulln : ¬ (ESPHOME_MAX_ADV_BATCH ≤ s.ble_batch.length + 1) := by
        simpa using hfull
      have hb : (esphome_api_queue_ble_advert sendOk now s adv).1.ble_batch =
          s.ble_batch ++ [convert_advert adv] := by
        simp [esphome_api_queue_ble_advert, h16, hfulln]
      refine ⟨?_, fun hcon => ?_, fun _ => hb, fun hcon => ?_,
        fun s' => by rw [flush_ble_batch_clears]; simp⟩
      · rw [hb]
        simp only [List.length_append, List.length_cons, List.length_nil, hmax]
        rw [hmax] at hfulln
        omega
      · exfalso
        rw [hmax] at hcon h16
        omega
      · exfalso
        rw [hmax] at hcon hfulln
        omega

def c3_state : ServerState :=
  { running := true, listen_open := true,
    clients := fun _ => closed_conn,
    ble_batch := List.replicate 16
      { address := 0, rssi := 0, address_type := 0, data := [] },
    last_flush := 0 }

def c3_advert : BleAdvert :=
  { address := [1, 2, 3, 4, 5, 6], address_type := 1, rssi := -40,
    data := [7, 8], data_len := 2 }

theorem c3_witness :
    c3_state.ble_batch.length ≤ ESPHOME_MAX_ADV_BATCH ∧
    (esphome_api_queue_ble_advert (fun _ => true) 0 c3_state
      c3_advert).1.ble_batch = [convert_advert c3_advert] :=
  ⟨by decide,
   (c3_enqueue_never_drops (fun _ => true) 0 c3_state c3_advert
     (by decide)).2.1 (by decide)⟩

/-- C9: an advertisement whose `data_len` exceeds 62 is stored truncated to
the first 62 bytes of its data array with the stored length 62, the call
still succeeds (the entry is appended to the batch), and the address
(packed by `mac_to_uint64`), rssi and address_type are carried over
unchanged. -/
theorem c9_advert_truncation (sendOk : Fin 2 → Bool) (now : Nat)
    (s : ServerState) (adv : BleAdvert)
    (hlen : ESPHOME_MAX_ADV_DATA < adv.data_len)
    (hroom : s.ble_batch.length < ESPHOME_MAX_ADV_BATCH - 1) :
    (convert_advert adv).data = adv.data.take 62 ∧
    (adv.data.length = 62 → (convert_advert adv).data.length = 62) ∧
    (convert_advert adv).address = mac_to_uint64 adv.address ∧
    (convert_advert adv).rssi = adv.rssi ∧
    (convert_advert adv).address_type = adv.address_type ∧
    (esphome_api_queue_ble_advert sendOk now s adv).1.ble_batch =
      s.ble_batch ++ [convert_advert adv] := by
  have hmin : min adv.data_len ESPHOME_MAX_ADV_DATA = 62 := by
    have h62 : ESPHOME_MAX_ADV_DATA = 62 := rfl
    rw [h62] at hlen ⊢
    omega
  refine ⟨by simp [convert_advert, hmin], ?_, rfl, rfl, rfl, ?_⟩
  · intro h62
    simp [convert_advert, hmin, List.length_take, h62]
  · have hmax : ESPHOME_MAX_ADV_BATCH = 16 := rfl
    have h16 : ¬ (ESPHOME_MAX_ADV_BATCH ≤ s.ble_batch.length) := by
      rw [hmax] at hroom ⊢
      omega
    have hfulln : ¬ (ESPHOME_MAX_ADV_BATCH ≤ s.ble_batch.length + 1) := by
      rw [hmax] at hroom ⊢
      omega
    simp [esphome_api_queue_ble_advert, h16, hfulln]

def c9_state : ServerState :=
  { running := true, listen_open := true,
    clients := fun _ => closed_conn, ble_batch := [], last_flush := 0 }

def c9_advert : BleAdvert :=
  { address := [1, 2, 3, 4, 5, 6], address_type := 0, rssi := -10,
    data := List.replicate 62 7, data_len := 100 }

theorem c9_witness :
    ESPHOME_MAX_ADV_DATA < c9_advert.data_len ∧
    (convert_advert c9_advert).data = c9_advert.data.take 62 ∧
    (esphome_api_queue_ble_advert (fun _ => true) 0 c9_state
      c9_advert).1.ble_batch = c9_state.ble_batch ++ [convert_advert c9_advert] :=
  ⟨by decide,
   (c9_advert_truncation (fun _ => true) 0 c9_state c9_advert
     (by decide) (by decide)).1,
   (c9_advert_truncation (fun _ => true) 0 c9_state c9_advert
     (by decide) (by decide)).2.2.2.2.2⟩

/-- C10: the NULL-pointer guards: `esphome_api_queue_ble_advert` with a NULL
server or advertisement, and `esphome_api_stop` / `esphome_api_free` with a
NULL server, return immediately without reading or modifying any state and
without emitting anything. -/
theorem c10_null_noops (sendOk : Fin 2 → Bool) (now : Nat) (s : ServerState)
    (a : BleAdvert) :
    esphome_api_queue_ble_advert_entry sendOk now none (some a) = (none, []) ∧
    esphome_api_queue_ble_advert_entry sendOk now none none = (none, []) ∧
    esphome_api_queue_ble_advert_entry sendOk now (some s) none = (some s, []) ∧
    esphome_api_stop none = none ∧
    esphome_api_free none = none :=
  ⟨rfl, rfl, rfl, rfl, rfl⟩

/-! ### Size bounds for the BLE batch encoding -/

/-- Well-formedness of a stored advertisement entry: exactly the ranges the C
types and the enqueue conversion guarantee (packed 48-bit MAC, int8 RSSI,
uint8 address_type, at most 62 data bytes). -/
def WFAdvert (a : PbBleAdvertisement) : Prop :=
  a.address < 2 ^ 48 ∧ -128 ≤ a.rssi ∧ a.rssi ≤ 127 ∧ a.address_type < 256 ∧
    a.data.length ≤ ESPHOME_MAX_ADV_DATA

instance (a : PbBleAdvertisement) : Decidable (WFAdvert a) := by
  unfold WFAdvert
  infer_instance

theorem zigzag32_le {n : Int} (h1 : -128 ≤ n) (h2 : n ≤ 127) : zigzag32 n ≤ 255 := by
  unfold zigzag32
  split <;> omega

theorem pb_tag_length (f w : Nat) (h : f * 8 + w < 128) : (pb_tag f w).length ≤ 1 :=
  pb_encode_varint_length_le (le_refl 1) (by norm_num) (by simpa using h)

theorem encode_ble_advert_length {a : PbBleAdvertisement} (h : WFAdvert a) :
    (encode_ble_advert a).length ≤ 78 := by
  obtain ⟨haddr, hr1, hr2, hat, hdata⟩ := h
  have h1 : (pb_encode_uint64 1 a.address).length ≤ 8 := by
    have ht := pb_tag_length 1 0 (by norm_num)
    have hv : (pb_encode_varint a.address).length ≤ 7 :=
      pb_encode_varint_length_le (by norm_num) (by norm_num)
        (lt_of_lt_of_le haddr (by norm_num))
    simp only [pb_encode_uint64, List.length_append]
    omega
  have h2 : (pb_encode_sint32 2 a.rssi).length ≤ 3 := by
    have ht := pb_tag_length 2 0 (by norm_num)
    have hz := zigzag32_le hr1 hr2
    have hv : (pb_encode_varint (zigzag32 a.rssi)).length ≤ 2 :=
      pb_encode_varint_length_le (by norm_num) (by norm_num) (by
        have : (256 : Nat) ≤ 128 ^ 2 := by norm_num
        omega)
    simp only [pb_encode_sint32, List.length_append]
    omega
  have h3 : (pb_encode_uint32 3 a.address_type).length ≤ 3 := by
    have ht := pb_tag_length 3 0 (by norm_num)
    have hv : (pb_encode_varint a.address_type).length ≤ 2 :=
      pb_encode_varint_length_le (by norm_num) (by norm_num) (by
        have : (256 : Nat) ≤ 128 ^ 2 := by norm_num
        omega)
    simp only [pb_encode_uint32, List.length_append]
    omega
  have h4 : (pb_encode_bytes 4 a.data).length ≤ 64 := by
    have ht := pb_tag_length 4 2 (by norm_num)
    have h62 : ESPHOME_MAX_ADV_DATA = 62 := rfl
    have hv : (pb_encode_varint a.data.length).length ≤ 1 :=
      pb_encode_varint_length_le (le_refl 1) (by norm_num) (by
        rw [h62] at hdata
        omega)
    simp only [pb_encode_bytes, List.length_append]
    rw [h62] at hdata
    omega
  simp only [encode_ble_advert, List.length_append]
  omega

theorem encode_ble_advert_wrapped_length {a : PbBleAdvertisement} (h : WFAdvert a) :
    (pb_encode_bytes 1 (encode_ble_advert a)).length ≤ 80 := by
  have hs := encode_ble_advert_length h
  have ht := pb_tag_length 1 2 (by norm_num)
  have hv : (pb_encode_varint (encode_ble_advert a).length).length ≤ 1 :=
    pb_encode_varint_length_le (le_refl 1) (by norm_num) (by omega)
  simp only [pb_encode_bytes, List.length_append]
  omega

theorem ble_body_length {batch : List PbBleAdvertisement}
    (h : ∀ a ∈ batch, WFAdvert a) :
    ((batch.map (fun a => pb_encode_bytes 1 (encode_ble_advert a))).flatten).length ≤
      80 * batch.length := by
  induction batch with
  | nil => simp
  | cons a rest ih =>
    simp only [List.map_cons, List.flatten_cons, List.length_append,
      List.length_cons]
    have h1 := encode_ble_advert_wrapped_length (h a (by simp))
    have h2 := ih (fun x hx => h x (by simp [hx]))
    omega

theorem pb_encode_bytes_ne_nil (f : Nat) (s : List Nat) :
    pb_encode_bytes f s ≠ [] := by
  simp only [pb_encode_bytes, pb_tag]
  intro hcon
  rw [List.append_assoc] at hcon
  exact pb_encode_varint_ne_nil _ (List.append_eq_nil.mp hcon).1

theorem esphome_encode_ble_advertisements_spec {batch : List PbBleAdvertisement}
    (hlen : batch.length ≤ ESPHOME_MAX_ADV_BATCH)
    (h : ∀ a ∈ batch, WFAdvert a) (hne : batch ≠ []) :
    esphome_encode_ble_advertisements ESPHOME_MAX_MESSAGE_SIZE batch =
      (batch.map (fun a => pb_encode_bytes 1 (encode_ble_advert a))).flatten ∧
    esphome_encode_ble_advertisements ESPHOME_MAX_MESSAGE_SIZE batch ≠ [] ∧
    (esphome_encode_ble_advertisements ESPHOME_MAX_MESSAGE_SIZE batch).length ≤ 1280 := by
  have hmax : ESPHOME_MAX_ADV_BATCH = 16 := rfl
  have hb := ble_body_length h
  have hfit : ((batch.map (fun a =>
      pb_encode_bytes 1 (encode_ble_advert a))).flatten).length ≤
      ESPHOME_MAX_MESSAGE_SIZE := by
    have h4096 : ESPHOME_MAX_MESSAGE_SIZE = 4096 := rfl
    rw [hmax] at hlen
    rw [h4096]
    have : 80 * batch.length ≤ 80 * 16 := by omega
    omega
  have heq : esphome_encode_ble_advertisements ESPHOME_MAX_MESSAGE_SIZE batch =
      (batch.map (fun a => pb_encode_bytes 1 (encode_ble_advert a))).flatten := by
    simp only [esphome_encode_ble_advertisements, if_pos hfit]
  refine ⟨heq, ?_, ?_⟩
  · rw [heq]
    cases batch with
    | nil => exact absurd rfl hne
    | cons a rest =>
      simp only [List.map_cons, List.flatten_cons]
      intro hcon
      exact pb_encode_bytes_ne_nil 1 (encode_ble_advert a)
        (List.append_eq_nil.mp hcon).1
  · rw [heq]
    rw [hmax] at hlen
    omega

theorem send_message_some (sendOk : Fin 2 → Bool) (i : Fin 2)
    {payload : List Nat} (hp : payload.length ≤ 1280) :
    send_message sendOk i 93 payload =
      some { slot := i, frame := frame_bytes 93 payload, ok := sendOk i } := by
  have hfit : (frame_bytes 93 payload).length ≤ SEND_BUFFER_SIZE := by
    have hflen := frame_bytes_length 93 payload
    have htv : (pb_encode_varint 93).length = 1 := rfl
    have hlv : (pb_encode_varint ((pb_encode_varint 93).length +
        payload.length)).length ≤ 2 := by
      refine pb_encode_varint_length_le (by norm_num) (by norm_num) ?_
      rw [htv]
      have : (128 : Nat) ^ 2 = 16384 := by norm_num
      omega
    have hsb : SEND_BUFFER_SIZE = 8192 := rfl
    omega
  have hframe : esphome_frame_message SEND_BUFFER_SIZE 93 payload =
      frame_bytes 93 payload := by
    simp only [esphome_frame_message, if_pos hfit]
  simp only [send_message, hframe, if_neg (frame_bytes_ne_nil 93 payload)]

theorem flush_ble_batch_nonempty (sendOk : Fin 2 → Bool) (now : Nat)
    (s : ServerState) (hlen : s.ble_batch.length ≤ ESPHOME_MAX_ADV_BATCH)
    (hwf : ∀ a ∈ s.ble_batch, WFAdvert a) (hne : s.ble_batch ≠ []) :
    flush_ble_batch sendOk now s =
      ({ s with ble_batch := [], last_flush := now },
       ((List.finRange 2).filter (fun i =>
          (s.clients i).fd_open && (s.clients i).subscribed_ble)).map
        (fun i => SendEvent.mk i (frame_bytes 93 (esphome_encode_ble_advertisements
          ESPHOME_MAX_MESSAGE_SIZE s.ble_batch)) (sendOk i))) := by
  obtain ⟨heq, henc, hencl⟩ := esphome_encode_ble_advertisements_spec hlen hwf hne
  have hsend : ∀ i, send_message sendOk i 93
      (esphome_encode_ble_advertisements ESPHOME_MAX_MESSAGE_SIZE s.ble_batch) =
      some (SendEvent.mk i (frame_bytes 93 (esphome_encode_ble_advertisements
        ESPHOME_MAX_MESSAGE_SIZE s.ble_batch)) (sendOk i)) :=
    fun i => send_message_some sendOk i hencl
  have hfr : (List.finRange 2) = [(0 : Fin 2), 1] := by decide
  simp only [flush_ble_batch, if_neg hne, if_neg henc, hfr]
  by_cases h0 : (s.clients 0).fd_open = true ∧ (s.clients 0).subscribed_ble = true <;>
    by_cases h1 : (s.clients 1).fd_open = true ∧ (s.clients 1).subscribed_ble = true <;>
      simp [List.filterMap_cons, List.filter_cons, h0, h1, hsend, Bool.and_eq_true]

/-- C4: flush on an empty batch is a no-op that sends nothing and changes no
state; flush on a non-empty well-formed batch encodes the whole batch as one
frame of type 93 (`BluetoothLERawAdvertisementsResponse`), hands that single
frame to exactly the registered sessions with an open connection and
`subscribed_ble = true`, and afterwards the batch count is 0 and the
`last_flush` reference point is reset to the flush time. -/
theorem c4_flush_semantics (sendOk : Fin 2 → Bool) (now : Nat) (s : ServerState)
    (hlen : s.ble_batch.length ≤ ESPHOME_MAX_ADV_BATCH)
    (hwf : ∀ a ∈ s.ble_batch, WFAdvert a) :
    (s.ble_batch = [] → flush_ble_batch sendOk now s = (s, [])) ∧
    (s.ble_batch ≠ [] →
      (flush_ble_batch sendOk now s).1.ble_batch = [] ∧
      (flush_ble_batch sendOk now s).1.last_flush = now ∧
      (flush_ble_batch sendOk now s).1.clients = s.clients ∧
      (flush_ble_batch sendOk now s).1.running = s.running ∧
      (flush_ble_batch sendOk now s).2 =
        ((List.finRange 2).filter (fun i =>
            (s.clients i).fd_open && (s.clients i).subscribed_ble)).map
          (fun i => SendEvent.mk i (frame_bytes 93 (esphome_encode_ble_advertisements
            ESPHOME_MAX_MESSAGE_SIZE s.ble_batch)) (sendOk i))) := by
  constructor
  · intro he
    simp [flush_ble_batch, he]
  · intro hne
    rw [flush_ble_batch_nonempty sendOk now s hlen hwf hne]
    exact ⟨rfl, rfl, rfl, rfl, rfl⟩

def c4_client : ClientConn :=
  { fd_open := true, authenticated := false, subscribed_ble := true,
    recv_buffer := [] }

def c4_state : ServerState :=
  { running := true, listen_open := true,
    clients := fun i => if i = 0 then c4_client else closed_conn,
    ble_batch := [{ address := 2, rssi := -5, address_type := 1, data := [3] }],
    last_flush := 0 }

theorem c4_witness :
    c4_state.ble_batch ≠ [] ∧
    (flush_ble_batch (fun _ => true) 9 c4_state).1.ble_batch = [] ∧
    (flush_ble_batch (fun _ => true) 9 c4_state).1.last_flush = 9 :=
  ⟨by decide,
   ((c4_flush_semantics (fun _ => true) 9 c4_state (by decide) (by decide)).2
     (by decide)).1,
   ((c4_flush_semantics (fun _ => true) 9 c4_state (by decide) (by decide)).2
     (by decide)).2.1⟩

def c5_client : ClientConn :=
  { fd_open := true, authenticated := false, subscribed_ble := true,
    recv_buffer := [] }

def c5_state : ServerState :=
  { running := true, listen_open := true, clients := fun _ => c5_client,
    ble_batch := [{ address := 1, rssi := 0, address_type := 0, data := [] }],
    last_flush := 0 }

def c5_sendOk : Fin 2 → Bool := fun i => decide (i = 1)

/-- C5 counterexample: the claim says a failed send makes the failing session
fatally broken (closed and released).  At this concrete input the send to
slot 0 fails (its event has `ok = false`) and the broadcast still reaches
slot 1, but slot 0's session is left completely untouched and its connection
stays open — `send_message`'s -1 return is discarded by `flush_ble_batch`
and by every handler, and no caller ever closes the session. -/
theorem c5_send_failure_counterexample :
    (∃ e ∈ (flush_ble_batch c5_sendOk 7 c5_state).2, e.slot = 0 ∧ e.ok = false) ∧
    (∃ e ∈ (flush_ble_batch c5_sendOk 7 c5_state).2, e.slot = 1 ∧ e.ok = true) ∧
    (flush_ble_batch c5_sendOk 7 c5_state).1.clients 0 = c5_client ∧
    ((flush_ble_batch c5_sendOk 7 c5_state).1.clients 0).fd_open = true := by
  decide

/-- C5 amended: when sending a frame to a session fails during a broadcast,
delivery to the other sessions still proceeds (every open subscribed slot
gets its own send attempt, whose outcome is that slot's alone), but the
failing session is NOT closed or released by the send path: `send_message`
merely returns -1, `flush_ble_batch` discards that return value and no
client state changes. -/
theorem c5_send_failure_amended (sendOk : Fin 2 → Bool) (now : Nat)
    (s : ServerState)
    (hlen : s.ble_batch.length ≤ ESPHOME_MAX_ADV_BATCH)
    (hwf : ∀ a ∈ s.ble_batch, WFAdvert a) (hne : s.ble_batch ≠ []) :
    (flush_ble_batch sendOk now s).1.clients = s.clients ∧
    (∀ i : Fin 2, (s.clients i).fd_open = true →
      (s.clients i).subscribed_ble = true →
      SendEvent.mk i (frame_bytes 93 (esphome_encode_ble_advertisements
        ESPHOME_MAX_MESSAGE_SIZE s.ble_batch)) (sendOk i) ∈
        (flush_ble_batch sendOk now s).2) := by
  rw [flush_ble_batch_nonempty sendOk now s hlen hwf hne]
  refine ⟨rfl, fun i hfd hsub => ?_⟩
  simp only [List.mem_map, List.mem_filter]
  exact ⟨i, ⟨List.mem_finRange i, by rw [hfd, hsub]; rfl⟩, rfl⟩

theorem c5_witness :
    c5_state.ble_batch ≠ [] ∧
    (flush_ble_batch c5_sendOk 7 c5_state).1.clients = c5_state.clients :=
  ⟨by decide,
   (c5_send_failure_amended c5_sendOk 7 c5_state (by decide) (by decide)
     (by decide)).1⟩

/-! ### Message catalog encoders and the dispatcher -/

/-- `esphome_device_config_t` (esphome_api.h): the immutable device identity;
strings are byte lists. -/
structure DeviceConfig where
  device_name : List Nat
  mac_address : List Nat
  esphome_version : List Nat
  model : List Nat
  manufacturer : List Nat
  friendly_name : List Nat
  suggested_area : List Nat
deriving DecidableEq

/-- The bytes of the constant suffix `" (Thingino BLE Proxy v1.0)"` that
`handle_hello_request` appends to the device name via snprintf. -/
def thingino_suffix : List Nat :=
  (" (Thingino BLE Proxy v1.0)".data.map Char.toNat)

/-- The bytes of the build-time `__DATE__ " " __TIME__` constant used by
`handle_device_info_request`; the concrete value is build-dependent, any
fixed byte string models it. -/
def compilation_time_bytes : List Nat :=
  ("Jan  1 2026 00:00:00".data.map Char.toNat)

/-- Modelled from the spec: `esphome_encode_hello_response`
(esphome_proto.h, spec 4.3): api_version_major (u32, field 1),
api_version_minor (u32, field 2), server_info (string), name (string); the
spec pins field numbers only for the two u32 fields, the strings take the
next numbers 3 and 4.  Returns the C length-0 failure sentinel when the
encoding exceeds the caller buffer `cap`. -/
def esphome_encode_hello_response (cap major minor : Nat)
    (server_info name : List Nat) : List Nat :=
  let body := pb_encode_uint32 1 major ++ pb_encode_uint32 2 minor ++
    pb_encode_string 3 server_info ++ pb_encode_string 4 name
  if body.length ≤ cap then body else []

/-- Modelled from the spec: `esphome_encode_connect_response`
(esphome_proto.h, spec 4.3): invalid_password (bool, field 1). -/
def esphome_encode_connect_response (cap : Nat) (invalid_password : Bool) :
    List Nat :=
  let body := pb_encode_bool 1 invalid_password
  if body.length ≤ cap then body else []

/-- Modelled from the spec: `esphome_encode_device_info_response`
(esphome_proto.h, spec 4.3): the DeviceInfoResponse fields in the spec's
order on fields 1-10, plus bluetooth_proxy_feature_flags (u32, field 15,
value passive-scan|raw-advertisements = 33) and bluetooth_mac_address
(string, field 18).  The string truncation bounds mirror the strncpy sizes
in `handle_device_info_request` (esphome_api.c lines 230-247). -/
def esphome_encode_device_info_response (cap : Nat) (cfg : DeviceConfig) :
    List Nat :=
  let body :=
    pb_encode_bool 1 false ++
    pb_encode_string 2 (cfg.device_name.take 127) ++
    pb_encode_string 3 (cfg.mac_address.take 23) ++
    pb_encode_string 4 (cfg.esphome_version.take 31) ++
    pb_encode_string 5 (compilation_time_bytes.take 63) ++
    pb_encode_string 6 (cfg.model.take 127) ++
    pb_encode_string 7 (cfg.manufacturer.take 127) ++
    pb_encode_string 8 (cfg.friendly_name.take 127) ++
    pb_encode_bool 9 false ++
    pb_encode_string 10 (cfg.suggested_area.take 63) ++
    pb_encode_uint32 15 33 ++
    pb_encode_string 18 (cfg.mac_address.take 23)
  if body.length ≤ cap then body else []

/-- Modelled from the spec: `pb_skip_field` (spec 4.1): the number of value
bytes an unknown field of the given wire type occupies at the head of
`rest`, or `none` when the input is malformed/truncated. -/
def pb_skip_len (wire_type : Nat) (rest : List Nat) : Option Nat :=
  if wire_type = 0 then
    match pb_decode_varint rest with
    | some (_, k) => some k
    | none => none
  else if wire_type = 1 then
    if 8 ≤ rest.length then some 8 else none
  else if wire_type = 2 then
    match pb_decode_varint rest with
    | some (len, k) => if k + len ≤ rest.length then some (k + len) else none
    | none => none
  else if wire_type = 5 then
    if 4 ≤ rest.length then some 4 else none
  else none

/-- Modelled from the spec: decode loop for
`esphome_decode_subscribe_ble_advertisements` (spec 4.3 / 4.1 decode
contract): flags is a u32 on field 1; unknown fields are skipped via
`skip_field`; malformed input fails the whole message decode.  Returns the
decoded flags. -/
def decode_subscribe_loop : Nat → List Nat → Nat → Option Nat
  | _, [], flags => some flags
  | 0, _ :: _, _ => none
  | fuel + 1, buf, flags =>
    match pb_decode_varint buf with
    | none => none
    | some (tag, k) =>
      let rest := buf.drop k
      if tag / 8 = 1 ∧ tag % 8 = 0 then
        match pb_decode_varint rest with
        | none => none
        | some (v, k2) => decode_subscribe_loop fuel (rest.drop k2) v
      else
        match pb_skip_len (tag % 8) rest with
        | none => none
        | some sk => decode_subscribe_loop fuel (rest.drop sk) flags

/-- Modelled from the spec: `esphome_decode_subscribe_ble_advertisements`
(esphome_proto.h). -/
def esphome_decode_subscribe_ble_advertisements (payload : List Nat) :
    Option Nat :=
  decode_subscribe_loop payload.length payload 0

/-- `handle_hello_request` (esphome_api.c lines 173-200): builds a
HelloResponse with API version 1.12, `server_info` =
device name + the proxy suffix (snprintf into char[128], so 127 bytes) and
`name` = device name (strncpy, 127 bytes); sends it only when the encoding
succeeded.  Returns the send attempts as `(message_type, payload)` pairs. -/
def handle_hello_request (cfg : DeviceConfig) : List (Nat × List Nat) :=
  let server_info := (cfg.device_name ++ thingino_suffix).take 127
  let name := cfg.device_name.take 127
  let p := esphome_encode_hello_response 512 1 12 server_info name
  if p = [] then [] else [(2, p)]

/-- `handle_connect_request` (esphome_api.c lines 202-222): sets
`authenticated := true` unconditionally, then sends
ConnectResponse(invalid_password = false) if encoding succeeded. -/
def handle_connect_request (c : ClientConn) : ClientConn × List (Nat × List Nat) :=
  let c1 := { c with authenticated := true }
  let p := esphome_encode_connect_response 32 false
  (c1, if p = [] then [] else [(4, p)])

/-- `handle_device_info_request` (esphome_api.c lines 224-283). -/
def handle_device_info_request (cfg : DeviceConfig) : List (Nat × List Nat) :=
  let p := esphome_encode_device_info_response 1024 cfg
  if p = [] then [] else [(10, p)]

/-- `handle_subscribe_ble_advertisements` (esphome_api.c lines 307-317):
sets `subscribed_ble := true` only when the payload decodes. -/
def handle_subscribe_ble_advertisements (c : ClientConn) (payload : List Nat) :
    ClientConn :=
  match esphome_decode_subscribe_ble_advertisements payload with
  | some _ => { c with subscribed_ble := true }
  | none => c

/-- `dispatch_message` (esphome_api.c lines 352-395): the switch on the
message type; returns the mutated session and the outbound send attempts.
Types: 1 HelloRequest, 3 ConnectRequest, 9 DeviceInfoRequest,
11 ListEntitiesRequest (reply 19), 20 SubscribeStatesRequest (no-op),
66 SubscribeBluetoothLEAdvertisementsRequest, 34/38 HomeAssistant
subscriptions (no-op), 7 PingRequest (reply 8), 5 DisconnectRequest (log
only), anything else ignored. -/
def dispatch_message (cfg : DeviceConfig) (c : ClientConn) (msg_type : Nat)
    (payload : List Nat) : ClientConn × List (Nat × List Nat) :=
  if msg_type = 1 then (c, handle_hello_request cfg)
  else if msg_type = 3 then handle_connect_request c
  else if msg_type = 9 then (c, handle_device_info_request cfg)
  else if msg_type = 11 then (c, [(19, [])])
  else if msg_type = 20 then (c, [])
  else if msg_type = 66 then (handle_subscribe_ble_advertisements c payload, [])
  else if msg_type = 34 then (c, [])
  else if msg_type = 38 then (c, [])
  else if msg_type = 7 then (c, [(8, [])])
  else if msg_type = 5 then (c, [])
  else (c, [])

set_option maxHeartbeats 1000000 in
/-- C7: message dispatch is independent of the session's authentication
state.  Two sessions that differ only in the `authenticated` flag produce,
for every inbound `(message_type, payload)`, the same outbound frames and
the same session mutations apart from the flag itself; and the flag's own
update is uniform: it becomes true exactly on ConnectRequest (type 3) and is
otherwise untouched.  No handler reads the flag, so none is gated on it. -/
theorem c7_dispatch_auth_independent (cfg : DeviceConfig)
    (msg_type : Nat) (payload : List Nat) (c1 c2 : ClientConn)
    (hfd : c1.fd_open = c2.fd_open)
    (hsub : c1.subscribed_ble = c2.subscribed_ble)
    (hbuf : c1.recv_buffer = c2.recv_buffer) :
    (dispatch_message cfg c1 msg_type payload).2 =
      (dispatch_message cfg c2 msg_type payload).2 ∧
    (dispatch_message cfg c1 msg_type payload).1.fd_open =
      (dispatch_message cfg c2 msg_type payload).1.fd_open ∧
    (dispatch_message cfg c1 msg_type payload).1.subscribed_ble =
      (dispatch_message cfg c2 msg_type payload).1.subscribed_ble ∧
    (dispatch_message cfg c1 msg_type payload).1.recv_buffer =
      (dispatch_message cfg c2 msg_type payload).1.recv_buffer ∧
    (dispatch_message cfg c1 msg_type payload).1.authenticated =
      (if msg_type = 3 then true else c1.authenticated) ∧
    (dispatch_message cfg c2 msg_type payload).1.authenticated =
      (if msg_type = 3 then true else c2.authenticated) := by
  unfold dispatch_message handle_connect_request handle_subscribe_ble_advertisements
  split_ifs <;>
    first
      | (exfalso; omega)
      | (simp [hfd, hsub, hbuf]; done)
      | (rcases hdec : esphome_decode_subscribe_ble_advertisements payload with _ | v <;>
          simp [hdec, hfd, hsub, hbuf])

def c7_config : DeviceConfig :=
  { device_name := [116, 101, 115, 116], mac_address := [65, 66],
    esphome_version := [49], model := [109], manufacturer := [109],
    friendly_name := [102], suggested_area := [97] }

def c7_client_a : ClientConn :=
  { fd_open := true, authenticated := false, subscribed_ble := false,
    recv_buffer := [] }

def c7_client_b : ClientConn :=
  { fd_open := true, authenticated := true, subscribed_ble := false,
    recv_buffer := [] }

theorem c7_witness :
    c7_client_a.subscribed_ble = c7_client_b.subscribed_ble ∧
    (dispatch_message c7_config c7_client_a 9 []).2 =
      (dispatch_message c7_config c7_client_b 9 []).2 :=
  ⟨by decide,
   (c7_dispatch_auth_independent c7_config 9 [] c7_client_a c7_client_b
     (by decide) (by decide) (by decide)).1⟩

/-! ### Session registry: accepting connections -/

/-- The slot-assignment part of `listen_thread_func` (esphome_api.c lines
601-617): scan the two client slots in order for one with `fd < 0`; assign
the new connection's descriptor to the first free slot; when none is free
the registry is unchanged and the result `none` means the caller closes the
new connection immediately ("Max clients reached") without any session-level
interaction. -/
def listen_accept (reg : Fin 2 → ClientConn) :
    (Fin 2 → ClientConn) × Option (Fin 2) :=
  if (reg 0).fd_open = false then
    (Function.update reg 0 { reg 0 with fd_open := true }, some 0)
  else if (reg 1).fd_open = false then
    (Function.update reg 1 { reg 1 with fd_open := true }, some 1)
  else (reg, none)

/-- C8: the session registry has fixed capacity 2.  When both slots are
occupied a newly accepted connection is rejected: no slot is allocated or
mutated (the registry is returned unchanged) and the connection is closed
with no protocol interaction (`none`).  When a slot is free, exactly one
free slot — the first — is assigned: it becomes occupied and every other
slot is untouched. -/
theorem c8_session_capacity (reg : Fin 2 → ClientConn) :
    ((∀ i, (reg i).fd_open = true) → listen_accept reg = (reg, none)) ∧
    (∀ j, (listen_accept reg).2 = some j →
      (reg j).fd_open = false ∧
      ((listen_accept reg).1 j).fd_open = true ∧
      (∀ k, k ≠ j → (listen_accept reg).1 k = reg k)) ∧
    ((∃ i, (reg i).fd_open = false) → ∃ j, (listen_accept reg).2 = some j) := by
  by_cases h0 : (reg 0).fd_open = false
  · refine ⟨fun hall => absurd (hall 0) (by simp [h0]), ?_, fun _ => ⟨0, by simp [listen_accept, h0]⟩⟩
    intro j hj
    simp only [listen_accept, if_pos h0] at hj ⊢
    have hj0 : j = 0 := by
      simpa using hj.symm
    subst hj0
    refine ⟨h0, by simp [Function.update_same], fun k hk => Function.update_noteq hk _ _⟩
  · by_cases h1 : (reg 1).fd_open = false
    · refine ⟨fun hall => absurd (hall 1) (by simp [h1]), ?_,
        fun _ => ⟨1, by simp [listen_accept, h0, h1]⟩⟩
      intro j hj
      simp only [listen_accept, if_neg h0, if_pos h1] at hj ⊢
      have hj1 : j = 1 := by
        simpa using hj.symm
      subst hj1
      refine ⟨h1, by simp [Function.update_same], fun k hk => Function.update_noteq hk _ _⟩
    · refine ⟨fun _ => by simp [listen_accept, h0, h1], ?_, fun hex => ?_⟩
      · intro j hj
        simp [listen_accept, h0, h1] at hj
      · obtain ⟨i, hi⟩ := hex
        exfalso
        have h2 : i = 0 ∨ i = 1 := by omega
        rcases h2 with rfl | rfl
        · exact h0 hi
        · exact h1 hi

def c8_full_reg : Fin 2 → ClientConn := fun _ =>
  { fd_open := true, authenticated := false, subscribed_ble := false,
    recv_buffer := [] }

theorem c8_witness :
    (∀ i : Fin 2, (c8_full_reg i).fd_open = true) ∧
    listen_accept c8_full_reg = (c8_full_reg, none) :=
  ⟨by decide, (c8_session_capacity c8_full_reg).1 (by decide)⟩
